import Mathlib

/-!
# Verification of the cardio-med contour-to-mask preparation pipeline

Shallow embedding of `src/prep/parser.py` (class `Parser`): the intensity
quality gate `check_by_intensity`, the per-study orchestration
`parse_patient`, and the batch driver `parse_all_patients`.  Strings
(filenames and paths) are modelled as `List Char`, images and masks as
finite 2D grids given by total functions, and Python exceptions as
`Except` errors.  The helper module `prep/parsing.py` is imported by the
source but absent from the repository; its members
(`parse_contour_file`, `parse_dicom_file`, `poly_to_mask`) are modelled
from the spec and marked as such in their doc comments.
-/

set_option autoImplicit false

namespace Cardio

/-- A decoded 2D image: intensity grid of height `H` and width `W`, read as
`pix i j` for row `i < H` and column `j < W` (row-major, mirroring a numpy
array of shape `(H, W)`).  Intensities are rationals, embedding the numeric
pixel values of the source. -/

structure Image where
  H : ℕ
  W : ℕ
  pix : ℕ → ℕ → ℚ

/-- A boolean mask: a 2D boolean grid of height `H` and width `W`. -/

structure Mask where
  H : ℕ
  W : ℕ
  sel : ℕ → ℕ → Bool

/-- Value domain for the floating-point statistic computed by
`check_by_intensity`: a finite rational, or one of the IEEE non-finite
values (`nan`, `+inf`, `-inf`) that numpy produces for an empty-selection
median and for division by zero. -/

inductive NpVal where
  | nan : NpVal
  | posInf : NpVal
  | negInf : NpVal
  | fin : ℚ → NpVal
deriving DecidableEq

/-- Ascending sort of a list of rationals. -/

def sortQ (l : List ℚ) : List ℚ := l.insertionSort (· ≤ ·)

/-- The rational median of a list, as `np.median` computes it on a
non-empty input: sort ascending; for odd length take the middle element,
for even length average the two middle elements. -/

def medianQ (l : List ℚ) : ℚ :=
  if l.length % 2 = 1 then (sortQ l).getD (l.length / 2) 0
  else ((sortQ l).getD (l.length / 2 - 1) 0 + (sortQ l).getD (l.length / 2) 0) / 2

/-- `np.median`: the median of a non-empty list, and `nan` (with a runtime
warning, not an exception) on an empty one. -/

def npMedian (l : List ℚ) : NpVal :=
  if l.isEmpty then .nan else .fin (medianQ l)

/-- IEEE division of the statistic by the (finite) image maximum, as numpy
evaluates `x / image.max()`: dividing by zero sends a nonzero finite
numerator to a signed infinity and `0 / 0` to `nan`. -/

def npDivMax (x : NpVal) (m : ℚ) : NpVal :=
  match x with
  | .nan => .nan
  | .posInf => if m < 0 then .negInf else .posInf
  | .negInf => if m < 0 then .posInf else .negInf
  | .fin a =>
      if m = 0 then
        if a = 0 then .nan else if 0 < a then .posInf else .negInf
      else .fin (a / m)

/-- IEEE comparison `x > t` for a finite rational threshold `t`:
`nan` compares false, `+inf` true, `-inf` false. -/

def npGtQ (x : NpVal) (t : ℚ) : Bool :=
  match x with
  | .nan => false
  | .posInf => true
  | .negInf => false
  | .fin a => decide (t < a)

/-- `image[mask]`: the selected pixel values, in row-major order, of the
pixels of `image` where `mask` is true (numpy boolean-mask indexing; the
mask is traversed over the image's own extent, the shapes being equal as
numpy requires). -/

def selectedList (mask : Mask) (image : Image) : List ℚ :=
  (List.range image.H).flatMap fun i =>
    ((List.range image.W).filter fun j => mask.sel i j).map fun j => image.pix i j

/-- All pixel values of an image, in row-major order. -/

def allPixels (image : Image) : List ℚ :=
  (List.range image.H).flatMap fun i =>
    (List.range image.W).map fun j => image.pix i j

/-- `np.max` over a non-empty list (the maximum element); `0` is returned
on the empty list, a case numpy instead rejects and which the claims
exclude by requiring non-degenerate images. -/

def npMax (l : List ℚ) : ℚ :=
  match l with
  | [] => 0
  | x :: xs => xs.foldl max x

/-- `image.max()`: the global maximum intensity of the image. -/

def maxIntensity (image : Image) : ℚ :=
  npMax (allPixels image)

/-- `Parser.check_by_intensity` (src/prep/parser.py:101-113): compute
`np.median(image[mask]) / image.max()` in the IEEE value domain and return
`True` iff the result compares strictly greater than `intensity_thresh`. -/

def check_by_intensity (mask : Mask) (image : Image) (intensity_thresh : ℚ) : Bool :=
  npGtQ (npDivMax (npMedian (selectedList mask image)) (maxIntensity image)) intensity_thresh

/-- `Parser.check_by_intensity` at its default threshold `0.1`. -/

def check_by_intensity_default (mask : Mask) (image : Image) : Bool :=
  check_by_intensity mask image (1 / 10)

/-- A concrete 1×2 all-true mask, used to instantiate gate claims. -/

def wMask2 : Mask := ⟨1, 2, fun _ _ => true⟩

/-- A concrete 1×2 image with pixel values 2 and 4. -/

def wImage2 : Image := ⟨1, 2, fun _ j => if j = 0 then 2 else 4⟩

/-! ### Python string primitives on `List Char`

Filenames and paths are modelled as `List Char`.  The primitives below
embed the Python string operations the source applies to them. -/

/-- Python `str.split(sep)` for a one-character separator: split at every
occurrence of `sep`, keeping empty fields. -/

def pySplit (sep : Char) : List Char → List (List Char)
  | [] => [[]]
  | c :: rest =>
      match pySplit sep rest with
      | [] => [[c]]
      | h :: t => if c = sep then [] :: h :: t else (c :: h) :: t

/-- Python `int(...)` as applied to a `-`-delimited filename field: a
non-empty all-digit field parses to its decimal value; any other field
raises `ValueError`, modelled as `none`.  (Python's `int` also strips
whitespace and accepts a sign; such fields never carry a valid slice index
in the naming scheme, where the field is purely numeric.) -/

def pyIntParse (s : List Char) : Option ℕ :=
  if s ≠ [] ∧ s.all Char.isDigit then
    some (s.foldl (fun acc c => acc * 10 + (c.toNat - '0'.toNat)) 0)
  else none

/-- `pat` matches in `s` at position `i`. -/

def matchAt (pat s : List Char) (i : ℕ) : Prop :=
  (s.drop i).take pat.length = pat

instance matchAt.instDec (pat s : List Char) (i : ℕ) : Decidable (matchAt pat s i) :=
  inferInstanceAs (Decidable ((s.drop i).take pat.length = pat))

/-- Python `str.replace(old, new)`: replace every non-overlapping
occurrence of `old`, scanning left to right.  (For empty `old` — unused by
the source — this returns the string unchanged.) -/

def pyReplace (oldp newp : List Char) (s : List Char) : List Char :=
  if h1 : oldp ≠ [] ∧ s.take oldp.length = oldp then
    newp ++ pyReplace oldp newp (s.drop oldp.length)
  else
    match s with
    | [] => []
    | c :: rest => c :: pyReplace oldp newp rest
termination_by s.length
decreasing_by
  · have hle : oldp.length ≤ s.length := by
      have hlen := congrArg List.length h1.2
      simp only [List.length_take] at hlen
      omega
    have hpos : 0 < oldp.length := List.length_pos.mpr h1.1
    simp only [List.length_drop]
    omega
  · simp only [List.length_cons]
    omega

/-- Joining fields with a one-character separator (the inverse image of
`pySplit` on separator-free fields), used to state what "the expected
delimited structure" of an annotation filename is. -/

def joinSep (sep : Char) : List (List Char) → List Char
  | [] => []
  | f :: rest =>
      match rest with
      | [] => f
      | _ :: _ => f ++ sep :: joinSep sep rest

/-- `int(icontour_name.split('-')[2])` (src/prep/parser.py:78): extract the
slice index from an inner-annotation filename; `none` models the
IndexError / ValueError raised when the filename lacks the expected
delimited structure. -/

def sliceNumOf (name : List Char) : Option ℕ :=
  ((pySplit '-' name)[2]?).bind pyIntParse

/-- `icontour_name.replace('icontour', 'ocontour')`
(src/prep/parser.py:80): derive the outer-annotation filename. -/

def ocontourNameOf (name : List Char) : List Char :=
  pyReplace "icontour".toList "ocontour".toList name

/-! ### The study pipeline -/

/-- Modelled from the spec (§4.2 PolygonRasterizer; the module
`prep/parsing.py` that defines the rasterizer is imported by the source
but missing from the repository): even-odd ray-casting point-in-polygon
test at a pixel center `(px, py)`, toggling on each crossing edge of the
implicitly closed polygon. -/

def pointInPoly (verts : List (ℚ × ℚ)) (px py : ℚ) : Bool :=
  (verts.zip (verts.rotate 1)).foldl
    (fun acc e =>
      if (decide (e.1.2 ≤ py) != decide (e.2.2 ≤ py)) &&
          decide (px < e.1.1 + (py - e.1.2) * (e.2.1 - e.1.1) / (e.2.2 - e.1.2)) then
        !acc
      else acc)
    false

/-- Modelled from the spec (§4.2 PolygonRasterizer, the missing
`prep/parsing.py`): `poly_to_mask(polygon, width, height)` produces a
`height × width` boolean grid marking the pixels enclosed by the polygon;
a degenerate polygon with fewer than 3 vertices rasterizes to an
all-false grid of the requested dimensions. -/

def poly_to_mask (polygon : List (ℚ × ℚ)) (width height : ℕ) : Mask :=
  { H := height, W := width,
    sel := fun i j =>
      if polygon.length < 3 then false else pointInPoly polygon (j : ℚ) (i : ℚ) }

/-- The Python exceptions that can escape `Parser.parse_patient`. -/

inductive PyError where
  /-- IndexError: subscripting a too-short `split` result. -/
  | indexError : PyError
  /-- ValueError: `int()` applied to a non-numeric field. -/
  | valueError : PyError
  /-- FileNotFoundError escaping `listdir` on a missing directory. -/
  | fileNotFound : PyError
deriving DecidableEq

/-- `os.path.join` of two path components. -/

def joinP (a b : List Char) : List Char := a ++ '/' :: b

/-- The path configuration held by a `Parser` instance
(src/prep/parser.py:29-35): dicom root, contour root and the three output
directories. -/

structure Cfg where
  img_root_dir : List Char
  target_root_dir : List Char
  img_dir : List Char
  i_msk_dir : List Char
  o_msk_dir : List Char

/-- The filesystem and collaborators the pipeline runs against. -/

structure Env where
  /-- `os.listdir`: `none` models a missing directory
  (`FileNotFoundError` escaping src/prep/parser.py:75). -/
  listdir : List Char → Option (List (List Char))
  /-- Modelled from the spec (§6 image decode collaborator; the missing
  `prep/parsing.py`'s `parse_dicom_file`, read through `['pixel_data']` at
  src/prep/parser.py:82): decode a dicom file into its pixel grid;
  `none` models the `FileNotFoundError` the pipeline catches. -/
  parse_dicom_file : List Char → Option Image
  /-- Modelled from the spec (§4.1 AnnotationParser, the missing
  `prep/parsing.py`'s `parse_contour_file`): the parsed vertex sequence of
  an annotation file; a missing or empty file yields `[]` (§4.1/§4.3:
  absence of the outer boundary is valid and signalled by an empty
  sequence, which line 95's truthiness test `if o_contour:` filters). -/
  parse_contour_file : List Char → List (ℚ × ℚ)

/-- `join(self.img_root_dir, dicom_id, str(slice_num) + '.dcm')`
(src/prep/parser.py:79,82). -/

def dicomPath (cfg : Cfg) (dicom_id : List Char) (slice_num : ℕ) : List Char :=
  joinP (joinP cfg.img_root_dir dicom_id) (Nat.toDigits 10 slice_num ++ ".dcm".toList)

/-- `join(self.target_root_dir, contour_id, 'i-contours')`
(src/prep/parser.py:75). -/

def icontoursDir (cfg : Cfg) (contour_id : List Char) : List Char :=
  joinP (joinP cfg.target_root_dir contour_id) "i-contours".toList

/-- The full path of an inner-annotation file (src/prep/parser.py:87,94). -/

def icontourPath (cfg : Cfg) (contour_id name : List Char) : List Char :=
  joinP (icontoursDir cfg contour_id) name

/-- The full path of an outer-annotation file (src/prep/parser.py:88). -/

def ocontourPath (cfg : Cfg) (contour_id oname : List Char) : List Char :=
  joinP (joinP (joinP cfg.target_root_dir contour_id) "o-contours".toList) oname

/-- `dicom_id + '-' + str(slice_num) + '.jpeg'`, the canonical output name
shared by the three output files of a slice (src/prep/parser.py:85-86,97). -/

def sliceBase (dicom_id : List Char) (slice_num : ℕ) : List Char :=
  dicom_id ++ '-' :: (Nat.toDigits 10 slice_num ++ ".jpeg".toList)

/-- The outcome of one slice iteration, before output writing. -/

inductive SliceStep where
  /-- The dicom decode raised `FileNotFoundError`: `continue`. -/
  | skipped : SliceStep
  /-- The slice was decoded, parsed, rasterized and gated. -/
  | processed (slice_num : ℕ) (image : Image) (i_mask : Mask)
      (accepted : Bool) (o_mask : Option Mask) : SliceStep

/-- One iteration of the `for icontour_name in i_contour_fnames` loop of
`Parser.parse_patient` (src/prep/parser.py:77-90), up to but excluding
the writes: extract the slice number from the filename (an unexpected
filename raises), derive the dicom and outer-annotation names, decode the
image (`FileNotFoundError` is caught and skips the slice), parse both
contours, rasterize against the decoded image's own dimensions
(`image.shape[1]` by `image.shape[0]`) and apply `check_mask`. -/

def processSlice (env : Env) (cfg : Cfg) (dicom_id contour_id : List Char)
    (check_mask : Mask → Image → Bool) (icontour_name : List Char) :
    Except PyError SliceStep :=
  match (pySplit '-' icontour_name)[2]? with
  | none => .error .indexError
  | some field =>
      match pyIntParse field with
      | none => .error .valueError
      | some slice_num =>
          match env.parse_dicom_file (dicomPath cfg dicom_id slice_num) with
          | none => .ok .skipped
          | some image =>
              let i_contour := env.parse_contour_file (icontourPath cfg contour_id icontour_name)
              let o_contour := env.parse_contour_file
                (ocontourPath cfg contour_id (ocontourNameOf icontour_name))
              let i_mask := poly_to_mask i_contour image.W image.H
              .ok (.processed slice_num image i_mask (check_mask i_mask image)
                (if o_contour.isEmpty then none
                 else some (poly_to_mask o_contour image.W image.H)))

/-- The per-study output accumulators: the three output directories'
emitted files and the rejection list returned by `parse_patient`. -/

structure ParseResult where
  images : List (List Char × Image)
  i_masks : List (List Char × Mask)
  o_masks : List (List Char × Mask)
  rejected : List (List Char)

/-- The empty accumulator. -/

def emptyPR : ParseResult := ⟨[], [], [], []⟩

/-- Concatenation of accumulators, in iteration order. -/

def appendPR (r1 r2 : ParseResult) : ParseResult :=
  ⟨r1.images ++ r2.images, r1.i_masks ++ r2.i_masks,
    r1.o_masks ++ r2.o_masks, r1.rejected ++ r2.rejected⟩

/-- The writes and record performed for one slice
(src/prep/parser.py:85-98): on accept, the image and the inner mask are
written under `<dicom_id>-<slice_num>.jpeg`; on reject, the
inner-annotation source path is appended to the check list; the outer
mask — when the outer contour is non-empty — is written after either
outcome (lines 95-98 sit outside the accept branch). -/

def emitSlice (cfg : Cfg) (dicom_id contour_id icontour_name : List Char)
    (step : SliceStep) : ParseResult :=
  match step with
  | .skipped => emptyPR
  | .processed slice_num image i_mask accepted o_mask =>
      { images := if accepted then [(joinP cfg.img_dir (sliceBase dicom_id slice_num), image)] else []
        i_masks := if accepted then [(joinP cfg.i_msk_dir (sliceBase dicom_id slice_num), i_mask)] else []
        o_masks :=
          match o_mask with
          | none => []
          | some m => [(joinP cfg.o_msk_dir (sliceBase dicom_id slice_num), m)]
        rejected := if accepted then [] else [icontourPath cfg contour_id icontour_name] }

/-- The slice loop of `Parser.parse_patient` (src/prep/parser.py:77-98):
process the annotation filenames in listing order, accumulating the
emitted outputs and the rejection list; an exception raised for one slice
propagates out of the loop. -/

def processList (env : Env) (cfg : Cfg) (dicom_id contour_id : List Char)
    (check_mask : Mask → Image → Bool) : List (List Char) → Except PyError ParseResult
  | [] => .ok emptyPR
  | name :: rest =>
      match processSlice env cfg dicom_id contour_id check_mask name with
      | .error e => .error e
      | .ok step =>
          match processList env cfg dicom_id contour_id check_mask rest with
          | .error e => .error e
          | .ok r => .ok (appendPR (emitSlice cfg dicom_id contour_id name step) r)

/-- `Parser.parse_patient` (src/prep/parser.py:58-99): list the study's
inner-annotation directory (a missing directory raises) and run the slice
loop; returns the emitted outputs and the rejection list. -/

def parse_patient (env : Env) (cfg : Cfg) (dicom_id contour_id : List Char)
    (check_mask : Mask → Image → Bool) : Except PyError ParseResult :=
  match env.listdir (icontoursDir cfg contour_id) with
  | none => .error .fileNotFound
  | some names => processList env cfg dicom_id contour_id check_mask names

/-- `parse_patient` called without an explicit `check_mask`: the default
predicate `lambda mask, image: True` (src/prep/parser.py:58) accepts
every pair. -/

def parse_patient_default (env : Env) (cfg : Cfg) (dicom_id contour_id : List Char) :
    Except PyError ParseResult :=
  parse_patient env cfg dicom_id contour_id (fun _ _ => true)

/-- `Parser.parse_all_patients` (src/prep/parser.py:37-56): iterate the
link-table rows in order, run `parse_patient` for each study and extend
the run-level rejection list; an exception raised by any study
propagates.  (The idempotent `makedirs` calls have no bearing on the
claims and are not modelled.) -/

def parse_all_patients (env : Env) (cfg : Cfg) (linkfile : List (List Char × List Char))
    (check_mask : Mask → Image → Bool) : Except PyError (List (List Char)) :=
  match linkfile with
  | [] => .ok []
  | (dicom_id, contour_id) :: rest =>
      match parse_patient env cfg dicom_id contour_id check_mask with
      | .error e => .error e
      | .ok r =>
          match parse_all_patients env cfg rest check_mask with
          | .error e => .error e
          | .ok l => .ok (r.rejected ++ l)

/-- `parse_all_patients` called without an explicit `check_mask`
(src/prep/parser.py:37). -/

def parse_all_patients_default (env : Env) (cfg : Cfg)
    (linkfile : List (List Char × List Char)) : Except PyError (List (List Char)) :=
  parse_all_patients env cfg linkfile (fun _ _ => true)

/-- The rejection list of a study outcome (empty for a raised exception). -/

def rejectedOf (e : Except PyError ParseResult) : List (List Char) :=
  match e with
  | .ok r => r.rejected
  | .error _ => []

/-- A triangle contour, a 1×1 image, a well-formed annotation filename, a
path configuration and environments over them, used to instantiate the
pipeline claims on concrete inputs. -/

def wTri : List (ℚ × ℚ) := [(0, 0), (0, 2), (2, 0)]

def wImg1 : Image := ⟨1, 1, fun _ _ => 7⟩

def wName : List Char := "a-0-3-icontour-b".toList

def wCfg : Cfg :=
  ⟨"img".toList, "tgt".toList, "outimg".toList, "outim".toList, "outom".toList⟩

/-- An environment whose single study lists one well-formed annotation,
decodes every image to `wImg1` and parses every contour file to `wTri`. -/

def envTri : Env := ⟨fun _ => some [wName], fun _ => some wImg1, fun _ => wTri⟩

/-- An environment whose dicom decode always raises `FileNotFoundError`. -/

def envSkip : Env := ⟨fun _ => some [wName], fun _ => none, fun _ => []⟩

/-- An environment whose single annotation filename has no third
`-`-delimited field. -/

def envBadName : Env := ⟨fun _ => some ["bad".toList], fun _ => none, fun _ => []⟩

/-- An environment whose single annotation filename has a non-numeric
third field. -/

def envBadNum : Env :=
  ⟨fun _ => some ["a-b-x-icontour-y".toList], fun _ => none, fun _ => []⟩

/-- An environment with no annotation directory at all. -/

def envMissingDir : Env := ⟨fun _ => none, fun _ => none, fun _ => []⟩

/-- An environment whose single study lists one well-formed annotation,
decodes its image and has an empty inner contour and no outer contour. -/

def envAcc : Env := ⟨fun _ => some [wName], fun _ => some wImg1, fun _ => []⟩

/-- The outputs `parse_patient_default` produces over `envAcc`. -/

def prAcc : ParseResult :=
  { images := [(joinP wCfg.img_dir (sliceBase "d".toList 3), wImg1)]
    i_masks := [(joinP wCfg.i_msk_dir (sliceBase "d".toList 3), poly_to_mask [] 1 1)]
    o_masks := []
    rejected := [] }

theorem getD_mem {α : Type} (l : List α) (i : ℕ) (d : α) (h : i < l.length) :
    l.getD i d ∈ l := by
  induction l generalizing i with
  | nil => simp at h
  | cons x xs ih =>
      cases i with
      | zero => simp [List.getD]
      | succ n =>
          simp only [List.getD_cons_succ]
          exact List.mem_cons_of_mem _ (ih n (by simpa using h))

theorem foldl_max_init_le (l : List ℚ) (a : ℚ) : a ≤ l.foldl max a := by
  induction l generalizing a with
  | nil => simp
  | cons x xs ih => exact le_trans (le_max_left a x) (ih (max a x))

theorem le_foldl_max_of_mem {l : List ℚ} {x : ℚ} (a : ℚ) (h : x ∈ l) :
    x ≤ l.foldl max a := by
  induction l generalizing a with
  | nil => simp at h
  | cons y ys ih =>
      rcases List.mem_cons.mp h with rfl | hmem
      · exact le_trans (le_max_right a x) (foldl_max_init_le ys (max a x))
      · exact ih (max a y) hmem

theorem le_npMax_of_mem {l : List ℚ} {x : ℚ} (h : x ∈ l) : x ≤ npMax l := by
  cases l with
  | nil => simp at h
  | cons y ys =>
      rcases List.mem_cons.mp h with rfl | hmem
      · exact foldl_max_init_le ys x
      · exact le_foldl_max_of_mem y hmem

theorem mem_selected_mem_all {mask : Mask} {image : Image} {x : ℚ}
    (h : x ∈ selectedList mask image) : x ∈ allPixels image := by
  simp only [selectedList, List.mem_flatMap, List.mem_map, List.mem_filter] at h
  obtain ⟨i, hi, j, ⟨hj, _⟩, rfl⟩ := h
  simp only [allPixels, List.mem_flatMap, List.mem_map]
  exact ⟨i, hi, j, hj, rfl⟩

theorem sortQ_perm (l : List ℚ) : List.Perm (sortQ l) l := List.perm_insertionSort _ l

theorem medianQ_le_of_forall_le {l : List ℚ} {B : ℚ} (hne : l ≠ [])
    (h : ∀ x ∈ l, x ≤ B) : medianQ l ≤ B := by
  have hperm : List.Perm (sortQ l) l := sortQ_perm l
  have hmem : ∀ x, x ∈ sortQ l → x ≤ B := fun x hx => h x (hperm.mem_iff.mp hx)
  have hlen : (sortQ l).length = l.length := hperm.length_eq
  have hpos : 0 < l.length := List.length_pos.mpr hne
  by_cases hodd : l.length % 2 = 1
  · rw [medianQ, if_pos hodd]
    exact hmem _ (getD_mem _ _ _ (by omega))
  · rw [medianQ, if_neg hodd]
    have h1 : (sortQ l).getD (l.length / 2 - 1) 0 ≤ B :=
      hmem _ (getD_mem _ _ _ (by omega))
    have h2 : (sortQ l).getD (l.length / 2) 0 ≤ B :=
      hmem _ (getD_mem _ _ _ (by omega))
    linarith

theorem medianQ_le_maxIntensity {mask : Mask} {image : Image}
    (hne : selectedList mask image ≠ []) :
    medianQ (selectedList mask image) ≤ maxIntensity image :=
  medianQ_le_of_forall_le hne fun x hx =>
    le_npMax_of_mem (mem_selected_mem_all hx)

/-- C1: for every (non-degenerate) image, applying the quality gate to a
mask that selects zero pixels returns the rejection verdict `false`: the
empty-selection median is `nan`, which survives the division and compares
false against any threshold, so the gate returns a defined verdict instead
of propagating a fault (the embedding is a total function). -/
theorem claim_C1_empty_mask_rejects (mask : Mask) (image : Image) (t : ℚ)
    (hH : 0 < image.H) (hW : 0 < image.W)
    (hempty : selectedList mask image = []) :
    check_by_intensity mask image t = false := by
  unfold check_by_intensity npMedian
  rw [hempty]
  simp [npDivMax, npGtQ]

theorem claim_C1_empty_mask_rejects_witness :
    check_by_intensity ⟨1, 1, fun _ _ => false⟩ ⟨1, 1, fun _ _ => 5⟩ (1 / 10) = false :=
  claim_C1_empty_mask_rejects ⟨1, 1, fun _ _ => false⟩ ⟨1, 1, fun _ _ => 5⟩ (1 / 10)
    (by decide) (by decide) (by decide)

/-- C2: for every mask selecting at least one pixel and every image, the
gate accepts iff the median of the selected intensities divided by the
image's global maximum strictly exceeds the (non-negative) threshold; the
default threshold is `0.1`.  (When the global maximum is `0`, all selected
pixels are `≤ 0`, numpy yields `nan` or `-inf` — reject — matching the
rational convention `m / 0 = 0` on the right-hand side.) -/
theorem claim_C2_gate_median_over_max (mask : Mask) (image : Image) (t : ℚ)
    (hne : selectedList mask image ≠ []) (ht : 0 ≤ t) :
    check_by_intensity_default mask image = check_by_intensity mask image (1 / 10) ∧
      (check_by_intensity mask image t = true ↔
        t < medianQ (selectedList mask image) / maxIntensity image) := by
  refine ⟨rfl, ?_⟩
  have hmed : medianQ (selectedList mask image) ≤ maxIntensity image :=
    medianQ_le_maxIntensity hne
  unfold check_by_intensity
  cases hsel : selectedList mask image with
  | nil => exact absurd hsel hne
  | cons x xs =>
      rw [hsel] at hmed
      have hnp : npMedian (x :: xs) = .fin (medianQ (x :: xs)) := rfl
      rw [hnp]
      by_cases hmx : maxIntensity image = 0
      · rw [hmx] at hmed ⊢
        rw [div_zero]
        have hnlt : ¬ t < 0 := not_lt.mpr ht
        rcases eq_or_lt_of_le hmed with heq | hlt
        · rw [heq]
          simp [npDivMax, npGtQ, hnlt]
        · simp [npDivMax, npGtQ, ne_of_lt hlt, not_lt.mpr (le_of_lt hlt), hnlt]
      · simp [npDivMax, hmx, npGtQ]

theorem claim_C2_gate_median_over_max_witness :
    selectedList wMask2 wImage2 ≠ [] ∧
      (check_by_intensity wMask2 wImage2 (1 / 10) = true ↔
        (1 : ℚ) / 10 < medianQ (selectedList wMask2 wImage2) / maxIntensity wImage2) :=
  ⟨by decide,
    (claim_C2_gate_median_over_max wMask2 wImage2 (1 / 10) (by decide) (by norm_num)).2⟩

theorem npGtQ_antitone {v : NpVal} {t1 t2 : ℚ} (h12 : t1 ≤ t2)
    (h : npGtQ v t2 = true) : npGtQ v t1 = true := by
  cases v with
  | nan => simp [npGtQ] at h
  | posInf => rfl
  | negInf => simp [npGtQ] at h
  | fin a =>
      simp only [npGtQ, decide_eq_true_eq] at h ⊢
      exact lt_of_le_of_lt h12 h

/-- C9: for a fixed image and mask with a nonzero selected-pixel count, the
gate verdict is antitone in the threshold — if it accepts at `t2` and
`t1 ≤ t2`, it also accepts at `t1`. -/
theorem claim_C9_gate_antitone_threshold (mask : Mask) (image : Image) (t1 t2 : ℚ)
    (h12 : t1 ≤ t2) (hne : selectedList mask image ≠ [])
    (hacc : check_by_intensity mask image t2 = true) :
    check_by_intensity mask image t1 = true :=
  npGtQ_antitone h12 hacc

theorem pySplit_ne_nil (sep : Char) (s : List Char) : pySplit sep s ≠ [] := by
  cases s with
  | nil => simp [pySplit]
  | cons c rest =>
      simp only [pySplit]
      cases pySplit sep rest with
      | nil => simp
      | cons h t =>
          by_cases hc : c = sep <;> simp [hc]

theorem pySplit_sep_free {sep : Char} {f : List Char} (hf : sep ∉ f) :
    pySplit sep f = [f] := by
  induction f with
  | nil => rfl
  | cons c rest ih =>
      have hcs : c ≠ sep := fun h => hf (h ▸ List.mem_cons_self c rest)
      have hrest : sep ∉ rest := fun h => hf (List.mem_cons_of_mem c h)
      simp only [pySplit, ih hrest]
      simp [hcs]

theorem pySplit_append_sep {sep : Char} {f : List Char} (r : List Char)
    (hf : sep ∉ f) : pySplit sep (f ++ sep :: r) = f :: pySplit sep r := by
  induction f with
  | nil =>
      simp only [List.nil_append, pySplit]
      cases hps : pySplit sep r with
      | nil => exact absurd hps (pySplit_ne_nil sep r)
      | cons h t => simp
  | cons c f' ih =>
      have hcs : c ≠ sep := fun h => hf (h ▸ List.mem_cons_self c f')
      have hf' : sep ∉ f' := fun h => hf (List.mem_cons_of_mem c h)
      simp only [List.cons_append, pySplit, List.append_eq]
      rw [ih hf']
      simp [hcs]

theorem pySplit_joinSep (sep : Char) (fields : List (List Char))
    (hne : fields ≠ []) (hsep : ∀ f ∈ fields, sep ∉ f) :
    pySplit sep (joinSep sep fields) = fields := by
  induction fields with
  | nil => exact absurd rfl hne
  | cons f rest ih =>
      cases rest with
      | nil =>
          simp only [joinSep]
          exact pySplit_sep_free (hsep f (List.mem_cons_self f []))
      | cons g gs =>
          have hj : joinSep sep (f :: g :: gs) = f ++ sep :: joinSep sep (g :: gs) := rfl
          rw [hj, pySplit_append_sep _ (hsep f (List.mem_cons_self f _)),
            ih (by simp) (fun x hx => hsep x (List.mem_cons_of_mem f hx))]

theorem matchAt_cons_succ (pat : List Char) (c : Char) (rest : List Char) (i : ℕ) :
    matchAt pat (c :: rest) (i + 1) ↔ matchAt pat rest i := by
  simp [matchAt]

theorem not_matchAt_of_le_length {pat s : List Char} {i : ℕ}
    (hp : pat ≠ []) (hi : s.length ≤ i) : ¬ matchAt pat s i := by
  intro h
  rw [matchAt, List.drop_eq_nil_of_le hi] at h
  simp only [List.take_nil] at h
  exact hp h.symm

theorem pyReplace_no_match {oldp newp s : List Char}
    (h : ∀ i, ¬ matchAt oldp s i) : pyReplace oldp newp s = s := by
  induction s with
  | nil =>
      rw [pyReplace]
      have h0 := h 0
      simp only [matchAt, List.drop_nil, List.take_nil] at h0
      rw [dif_neg (by
        rintro ⟨hne, htk⟩
        simp only [List.take_nil] at htk
        exact h0 htk)]
  | cons c rest ih =>
      rw [pyReplace]
      have h0 := h 0
      simp only [matchAt, List.drop_zero] at h0
      rw [dif_neg (by rintro ⟨hne, htk⟩; exact h0 htk)]
      have hrest : ∀ i, ¬ matchAt oldp rest i := fun i hm =>
        h (i + 1) ((matchAt_cons_succ oldp c rest i).mpr hm)
      show c :: pyReplace oldp newp rest = c :: rest
      rw [ih hrest]

theorem pyReplace_single_occurrence {oldp newp : List Char} (a b : List Char)
    (ho : oldp ≠ [])
    (hfirst : ∀ i < a.length, ¬ matchAt oldp (a ++ oldp ++ b) i)
    (hb : ∀ i < b.length, ¬ matchAt oldp b i) :
    pyReplace oldp newp (a ++ oldp ++ b) = a ++ newp ++ b := by
  have hball : ∀ i, ¬ matchAt oldp b i := fun i =>
    if hi : i < b.length then hb i hi
    else not_matchAt_of_le_length ho (by omega)
  revert hfirst
  induction a with
  | nil =>
      intro hfirst
      simp only [List.nil_append]
      rw [pyReplace]
      rw [dif_pos ⟨ho, by rw [List.take_left]⟩]
      rw [List.drop_left]
      rw [pyReplace_no_match hball]
  | cons c a' ih =>
      intro hfirst
      simp only [List.cons_append]
      rw [pyReplace]
      have h0 := hfirst 0 (by simp)
      rw [dif_neg (by rintro ⟨hne, htk⟩; exact h0 htk)]
      show c :: pyReplace oldp newp (a' ++ oldp ++ b) = c :: (a' ++ newp ++ b)
      rw [ih (fun i hi hm =>
        hfirst (i + 1) (by simpa using Nat.succ_lt_succ hi)
          ((matchAt_cons_succ oldp c (a' ++ oldp ++ b) i).mpr hm))]

/-- C4: for every inner-annotation filename with the expected delimited
structure — `-`-separated fields whose third field is numeric, containing
the `icontour` token exactly once — the slice matcher extracts the slice
index by splitting on `-` and parsing the third field as an integer
(so `IM-0001-0023-icontour-manual.txt` yields `23`, see the witness), and
the derived outer-boundary filename differs from the inner filename only
in the `icontour`/`ocontour` token. -/
theorem claim_C4_slice_matcher (fields : List (List Char)) (f2 a b : List Char) (k : ℕ)
    (hne : fields ≠ []) (hsep : ∀ f ∈ fields, '-' ∉ f)
    (hget : fields[2]? = some f2) (hint : pyIntParse f2 = some k)
    (hdec : joinSep '-' fields = a ++ "icontour".toList ++ b)
    (hfirst : ∀ i < a.length, ¬ matchAt "icontour".toList (a ++ "icontour".toList ++ b) i)
    (hb : ∀ i < b.length, ¬ matchAt "icontour".toList b i) :
    sliceNumOf (joinSep '-' fields) = some k ∧
      ocontourNameOf (joinSep '-' fields) = a ++ "ocontour".toList ++ b := by
  constructor
  · unfold sliceNumOf
    rw [pySplit_joinSep '-' fields hne hsep, hget]
    exact hint
  · unfold ocontourNameOf
    rw [hdec]
    exact pyReplace_single_occurrence a b (by decide) hfirst hb

theorem claim_C4_slice_matcher_witness :
    sliceNumOf (joinSep '-' ["IM".toList, "0001".toList, "0023".toList,
        "icontour".toList, "manual.txt".toList]) = some 23 ∧
      ocontourNameOf (joinSep '-' ["IM".toList, "0001".toList, "0023".toList,
        "icontour".toList, "manual.txt".toList]) =
        "IM-0001-0023-".toList ++ "ocontour".toList ++ "-manual.txt".toList :=
  claim_C4_slice_matcher
    ["IM".toList, "0001".toList, "0023".toList, "icontour".toList, "manual.txt".toList]
    "0023".toList "IM-0001-0023-".toList "-manual.txt".toList 23
    (by decide) (by decide) (by decide) (by decide) (by decide) (by decide) (by decide)

theorem claim_C9_gate_antitone_threshold_witness :
    (1 : ℚ) / 20 ≤ 1 / 10 ∧ selectedList wMask2 wImage2 ≠ [] ∧
      check_by_intensity wMask2 wImage2 (1 / 10) = true ∧
      check_by_intensity wMask2 wImage2 (1 / 20) = true :=
  ⟨by norm_num, by decide, by with_unfolding_all decide,
    claim_C9_gate_antitone_threshold wMask2 wImage2 (1 / 20) (1 / 10)
      (by norm_num) (by decide) (by with_unfolding_all decide)⟩

theorem appendPR_empty (r : ParseResult) : appendPR emptyPR r = r := by
  cases r
  simp [appendPR, emptyPR]

/-- C8: whenever a slice is processed, the inner mask — and the outer
mask when present — is rasterized with the decoded image's own height and
width, so its dimensions equal that image's dimensions. -/
theorem claim_C8_mask_dims_match_image (env : Env) (cfg : Cfg)
    (dicom_id contour_id : List Char) (check_mask : Mask → Image → Bool)
    (icontour_name : List Char) (slice_num : ℕ) (image : Image) (i_mask : Mask)
    (accepted : Bool) (o_mask : Option Mask)
    (h : processSlice env cfg dicom_id contour_id check_mask icontour_name =
      .ok (.processed slice_num image i_mask accepted o_mask)) :
    i_mask.H = image.H ∧ i_mask.W = image.W ∧
      ∀ m, o_mask = some m → m.H = image.H ∧ m.W = image.W := by
  unfold processSlice at h
  cases hg : (pySplit '-' icontour_name)[2]? with
  | none => simp only [hg] at h; simp at h
  | some field =>
      simp only [hg] at h
      cases hp : pyIntParse field with
      | none => simp only [hp] at h; simp at h
      | some n =>
          simp only [hp] at h
          cases hd : env.parse_dicom_file (dicomPath cfg dicom_id n) with
          | none => simp only [hd] at h; simp at h
          | some img =>
              simp only [hd] at h
              simp only [Except.ok.injEq, SliceStep.processed.injEq] at h
              obtain ⟨h1, h2, h3, h4, h5⟩ := h
              subst h2
              subst h3
              refine ⟨rfl, rfl, ?_⟩
              intro m hm
              rw [← h5] at hm
              by_cases he : (env.parse_contour_file
                  (ocontourPath cfg contour_id (ocontourNameOf icontour_name))).isEmpty
              · rw [if_pos he] at hm
                simp at hm
              · rw [if_neg he] at hm
                obtain rfl := Option.some.inj hm
                exact ⟨rfl, rfl⟩

theorem claim_C8_mask_dims_match_image_witness :
    (poly_to_mask wTri 1 1).H = wImg1.H ∧ (poly_to_mask wTri 1 1).W = wImg1.W := by
  have h := claim_C8_mask_dims_match_image envTri wCfg "d".toList "c".toList
    (fun _ _ => false) wName 3 wImg1 (poly_to_mask wTri 1 1) false
    (some (poly_to_mask wTri 1 1)) rfl
  exact ⟨h.1, h.2.1⟩

/-- C5: for every inner-annotation file whose derived image file is
missing (the dicom decode raises `FileNotFoundError`), the slice is
skipped silently: the loop outcome over `name :: rest` — its emitted
outputs and its rejection list alike — equals the outcome over `rest`. -/
theorem claim_C5_missing_image_skips (env : Env) (cfg : Cfg)
    (dicom_id contour_id : List Char) (check_mask : Mask → Image → Bool)
    (name : List Char) (rest : List (List Char)) (field : List Char) (slice_num : ℕ)
    (hf : (pySplit '-' name)[2]? = some field)
    (hk : pyIntParse field = some slice_num)
    (hd : env.parse_dicom_file (dicomPath cfg dicom_id slice_num) = none) :
    processList env cfg dicom_id contour_id check_mask (name :: rest) =
      processList env cfg dicom_id contour_id check_mask rest := by
  have hps : processSlice env cfg dicom_id contour_id check_mask name = .ok .skipped := by
    simp only [processSlice, hf, hk, hd]
  simp only [processList, hps]
  cases hr : processList env cfg dicom_id contour_id check_mask rest with
  | error e => rfl
  | ok r => simp [emitSlice, appendPR_empty]

theorem claim_C5_missing_image_skips_witness :
    processList envSkip wCfg "d".toList "c".toList (fun _ _ => true) [wName] =
      processList envSkip wCfg "d".toList "c".toList (fun _ _ => true) [] :=
  claim_C5_missing_image_skips envSkip wCfg "d".toList "c".toList (fun _ _ => true)
    wName [] "3".toList 3 (by decide) (by decide) rfl

/-- C3 as stated is false on the code: with a rejecting check and a
non-empty outer contour, the study's result records the rejection and
emits no image and no inner mask — but does emit one outer mask. -/
theorem claim_C3_counterexample :
    (parse_patient envTri wCfg "d".toList "c".toList (fun _ _ => false)).map
      (fun r => (r.images.length, r.i_masks.length, r.o_masks.length, r.rejected)) =
      .ok (0, 0, 1, [icontourPath wCfg "c".toList wName]) := rfl

/-- C3 corrected: for every slice whose inner mask is rejected, the
pipeline records the inner-annotation source path in the rejection list
and emits neither the image nor the inner mask; the outer mask, however,
is still emitted whenever the outer contour is present, because
src/prep/parser.py:95-98 sit outside the accept branch. -/
theorem claim_C3_reject_records_path_still_emits_outer (env : Env) (cfg : Cfg)
    (dicom_id contour_id : List Char) (check_mask : Mask → Image → Bool)
    (name : List Char) (rest : List (List Char)) (slice_num : ℕ) (image : Image)
    (i_mask : Mask) (o_mask : Option Mask) (r : ParseResult)
    (hls : env.listdir (icontoursDir cfg contour_id) = some (name :: rest))
    (hps : processSlice env cfg dicom_id contour_id check_mask name =
      .ok (.processed slice_num image i_mask false o_mask))
    (hrest : processList env cfg dicom_id contour_id check_mask rest = .ok r) :
    parse_patient env cfg dicom_id contour_id check_mask = .ok (appendPR
      { images := []
        i_masks := []
        o_masks := (o_mask.map
          (fun m => (joinP cfg.o_msk_dir (sliceBase dicom_id slice_num), m))).toList
        rejected := [icontourPath cfg contour_id name] } r) := by
  unfold parse_patient
  simp only [hls, processList, hps, hrest]
  cases o_mask with
  | none => rfl
  | some m => rfl

theorem claim_C3_reject_records_path_still_emits_outer_witness :
    parse_patient envTri wCfg "d".toList "c".toList (fun _ _ => false) = .ok (appendPR
      { images := []
        i_masks := []
        o_masks := [(joinP wCfg.o_msk_dir (sliceBase "d".toList 3), poly_to_mask wTri 1 1)]
        rejected := [icontourPath wCfg "c".toList wName] } emptyPR) :=
  claim_C3_reject_records_path_still_emits_outer envTri wCfg "d".toList "c".toList
    (fun _ _ => false) wName [] 3 wImg1 (poly_to_mask wTri 1 1)
    (some (poly_to_mask wTri 1 1)) emptyPR rfl rfl rfl

/-- C6 as stated is false on the code: over a well-formed one-row link
table, a single annotation filename without the expected pattern raises
an IndexError that escapes `parse_all_patients` — the exception
terminates the whole batch run instead of being converted into a
skip/record action. -/
theorem claim_C6_counterexample :
    parse_all_patients envBadName wCfg [("d".toList, "c".toList)] (fun _ _ => true) =
      .error .indexError := rfl

/-- C6 corrected: only the dicom-decode `FileNotFoundError` is caught
(src/prep/parser.py:81-84).  An annotation filename that does not match
the expected pattern (IndexError from `split('-')[2]`, or ValueError from
`int(...)`), and a study whose annotation directory is missing
(`FileNotFoundError` from `listdir`), raise uncaught exceptions that
abort the entire batch run. -/
theorem claim_C6_slice_and_study_errors_abort_batch (env : Env) (cfg : Cfg)
    (dicom_id contour_id : List Char) (check_mask : Mask → Image → Bool)
    (rest : List (List Char × List Char)) :
    (∀ name names, env.listdir (icontoursDir cfg contour_id) = some (name :: names) →
      (pySplit '-' name)[2]? = none →
      parse_all_patients env cfg ((dicom_id, contour_id) :: rest) check_mask =
        .error .indexError) ∧
    (∀ name names field, env.listdir (icontoursDir cfg contour_id) = some (name :: names) →
      (pySplit '-' name)[2]? = some field → pyIntParse field = none →
      parse_all_patients env cfg ((dicom_id, contour_id) :: rest) check_mask =
        .error .valueError) ∧
    (env.listdir (icontoursDir cfg contour_id) = none →
      parse_all_patients env cfg ((dicom_id, contour_id) :: rest) check_mask =
        .error .fileNotFound) := by
  refine ⟨?_, ?_, ?_⟩
  · intro name names hls hg
    have hps : processSlice env cfg dicom_id contour_id check_mask name =
        .error .indexError := by
      simp only [processSlice, hg]
    simp only [parse_all_patients, parse_patient, hls, processList, hps]
  · intro name names field hls hg hp
    have hps : processSlice env cfg dicom_id contour_id check_mask name =
        .error .valueError := by
      simp only [processSlice, hg, hp]
    simp only [parse_all_patients, parse_patient, hls, processList, hps]
  · intro hls
    simp only [parse_all_patients, parse_patient, hls]

theorem claim_C6_slice_and_study_errors_abort_batch_witness :
    parse_all_patients envBadNum wCfg [("d".toList, "c".toList)] (fun _ _ => true) =
        .error .valueError ∧
      parse_all_patients envMissingDir wCfg [("d".toList, "c".toList)] (fun _ _ => true) =
        .error .fileNotFound := by
  constructor
  · exact (claim_C6_slice_and_study_errors_abort_batch envBadNum wCfg "d".toList "c".toList
      (fun _ _ => true) []).2.1 "a-b-x-icontour-y".toList [] "x".toList rfl
      (by decide) (by decide)
  · exact (claim_C6_slice_and_study_errors_abort_batch envMissingDir wCfg "d".toList "c".toList
      (fun _ _ => true) []).2.2 rfl

/-- C7: when every study of the link table completes without raising, the
run-level rejection list returned by `parse_all_patients` is the in-order
concatenation of the per-study rejection lists. -/
theorem claim_C7_batch_rejections_concat (env : Env) (cfg : Cfg)
    (check_mask : Mask → Image → Bool) (linkfile : List (List Char × List Char))
    (h : ∀ p ∈ linkfile, ∃ r, parse_patient env cfg p.1 p.2 check_mask = .ok r) :
    parse_all_patients env cfg linkfile check_mask =
      .ok (linkfile.flatMap fun p =>
        rejectedOf (parse_patient env cfg p.1 p.2 check_mask)) := by
  induction linkfile with
  | nil => rfl
  | cons p rest ih =>
      obtain ⟨d, c⟩ := p
      obtain ⟨r, hr⟩ := h (d, c) (List.mem_cons_self _ _)
      have hrest := ih (fun q hq => h q (List.mem_cons_of_mem _ hq))
      simp only [parse_all_patients, List.flatMap_cons, rejectedOf, hr, hrest]

theorem claim_C7_batch_rejections_concat_witness :
    parse_all_patients envTri wCfg
        [("d1".toList, "c1".toList), ("d2".toList, "c2".toList)] (fun _ _ => false) =
      .ok [icontourPath wCfg "c1".toList wName, icontourPath wCfg "c2".toList wName] := by
  rw [claim_C7_batch_rejections_concat envTri wCfg (fun _ _ => false)
    [("d1".toList, "c1".toList), ("d2".toList, "c2".toList)]
    (by intro p hp; exact ⟨_, rfl⟩)]
  rfl

theorem processSlice_ok_accepted (env : Env) (cfg : Cfg)
    (dicom_id contour_id : List Char) (check_mask : Mask → Image → Bool)
    (name : List Char) {slice_num : ℕ} {image : Image} {i_mask : Mask}
    {accepted : Bool} {o_mask : Option Mask}
    (h : processSlice env cfg dicom_id contour_id check_mask name =
      .ok (.processed slice_num image i_mask accepted o_mask)) :
    accepted = check_mask i_mask image := by
  unfold processSlice at h
  cases hg : (pySplit '-' name)[2]? with
  | none => simp only [hg] at h; simp at h
  | some field =>
      simp only [hg] at h
      cases hp : pyIntParse field with
      | none => simp only [hp] at h; simp at h
      | some n =>
          simp only [hp] at h
          cases hd : env.parse_dicom_file (dicomPath cfg dicom_id n) with
          | none => simp only [hd] at h; simp at h
          | some img =>
              simp only [hd] at h
              simp only [Except.ok.injEq, SliceStep.processed.injEq] at h
              obtain ⟨h1, h2, h3, h4, h5⟩ := h
              subst h2
              subst h3
              subst h4
              rfl

theorem processSlice_decode_ok (env : Env) (cfg : Cfg)
    (dicom_id contour_id : List Char) (check_mask : Mask → Image → Bool)
    (name field : List Char) (slice_num : ℕ) (image : Image)
    (hf : (pySplit '-' name)[2]? = some field)
    (hk : pyIntParse field = some slice_num)
    (hd : env.parse_dicom_file (dicomPath cfg dicom_id slice_num) = some image) :
    ∃ im om, processSlice env cfg dicom_id contour_id check_mask name =
      .ok (.processed slice_num image im (check_mask im image) om) :=
  ⟨poly_to_mask (env.parse_contour_file (icontourPath cfg contour_id name)) image.W image.H,
    (if (env.parse_contour_file (ocontourPath cfg contour_id (ocontourNameOf name))).isEmpty
      then none
      else some (poly_to_mask
        (env.parse_contour_file (ocontourPath cfg contour_id (ocontourNameOf name)))
        image.W image.H)),
    by simp only [processSlice, hf, hk, hd]⟩

theorem processList_default_spec (env : Env) (cfg : Cfg)
    (dicom_id contour_id : List Char) :
    ∀ names r, processList env cfg dicom_id contour_id (fun _ _ => true) names = .ok r →
      r.rejected = [] ∧
      ∀ name ∈ names, ∀ field slice_num image,
        (pySplit '-' name)[2]? = some field →
        pyIntParse field = some slice_num →
        env.parse_dicom_file (dicomPath cfg dicom_id slice_num) = some image →
        joinP cfg.img_dir (sliceBase dicom_id slice_num) ∈ r.images.map Prod.fst ∧
        joinP cfg.i_msk_dir (sliceBase dicom_id slice_num) ∈ r.i_masks.map Prod.fst := by
  intro names
  induction names with
  | nil =>
      intro r h
      simp only [processList, Except.ok.injEq] at h
      subst h
      exact ⟨rfl, by intro name hn; simp at hn⟩
  | cons name rest ih =>
      intro r h
      simp only [processList] at h
      cases hps : processSlice env cfg dicom_id contour_id (fun _ _ => true) name with
      | error e => simp [hps] at h
      | ok step =>
          simp only [hps] at h
          cases hrest : processList env cfg dicom_id contour_id (fun _ _ => true) rest with
          | error e => simp [hrest] at h
          | ok r' =>
              simp only [hrest, Except.ok.injEq] at h
              subst h
              obtain ⟨ihrej, ihmem⟩ := ih r' hrest
              constructor
              · cases step with
                | skipped => simpa [appendPR, emitSlice, emptyPR] using ihrej
                | processed n img im acc om =>
                    have hacc : acc = true :=
                      processSlice_ok_accepted env cfg dicom_id contour_id _ name hps
                    subst hacc
                    simpa [appendPR, emitSlice] using ihrej
              · intro nm hnm field slice_num image hf hk hd
                rcases List.mem_cons.mp hnm with rfl | hmem
                · obtain ⟨im, om, hps'⟩ := processSlice_decode_ok env cfg dicom_id
                    contour_id (fun _ _ => true) nm field slice_num image hf hk hd
                  have hstep : step =
                      .processed slice_num image im ((fun _ _ => true) im image) om :=
                    Except.ok.inj (hps.symm.trans hps')
                  subst hstep
                  constructor
                  · have hi : (appendPR (emitSlice cfg dicom_id contour_id nm
                        (.processed slice_num image im ((fun _ _ => true) im image) om))
                          r').images =
                        (emitSlice cfg dicom_id contour_id nm
                          (.processed slice_num image im ((fun _ _ => true) im image) om)).images
                          ++ r'.images := rfl
                    rw [hi, List.map_append]
                    apply List.mem_append_left
                    simp [emitSlice]
                  · have hi : (appendPR (emitSlice cfg dicom_id contour_id nm
                        (.processed slice_num image im ((fun _ _ => true) im image) om))
                          r').i_masks =
                        (emitSlice cfg dicom_id contour_id nm
                          (.processed slice_num image im ((fun _ _ => true) im image) om)).i_masks
                          ++ r'.i_masks := rfl
                    rw [hi, List.map_append]
                    apply List.mem_append_left
                    simp [emitSlice]
                · have hm := ihmem nm hmem field slice_num image hf hk hd
                  constructor
                  · have hi : (appendPR (emitSlice cfg dicom_id contour_id name step) r').images =
                        (emitSlice cfg dicom_id contour_id name step).images ++ r'.images := rfl
                    rw [hi, List.map_append]
                    exact List.mem_append_right _ hm.1
                  · have hi : (appendPR (emitSlice cfg dicom_id contour_id name step) r').i_masks =
                        (emitSlice cfg dicom_id contour_id name step).i_masks ++ r'.i_masks := rfl
                    rw [hi, List.map_append]
                    exact List.mem_append_right _ hm.2

theorem parse_patient_default_rejected_nil (env : Env) (cfg : Cfg)
    (dicom_id contour_id : List Char) (r : ParseResult)
    (h : parse_patient_default env cfg dicom_id contour_id = .ok r) :
    r.rejected = [] := by
  unfold parse_patient_default parse_patient at h
  cases hls : env.listdir (icontoursDir cfg contour_id) with
  | none => simp [hls] at h
  | some names =>
      simp only [hls] at h
      exact (processList_default_spec env cfg dicom_id contour_id names r h).1

/-- C10: called without an explicit `check_mask`, the default predicate
accepts every (mask, image) pair: the rejection list of `parse_patient`
is empty and every slice that matched and decoded successfully has its
image and inner mask emitted; the run-level list of
`parse_all_patients` is empty as well. -/
theorem claim_C10_default_check_accepts_all (env : Env) (cfg : Cfg) :
    (∀ dicom_id contour_id r,
      parse_patient_default env cfg dicom_id contour_id = .ok r →
        r.rejected = [] ∧
        ∀ names, env.listdir (icontoursDir cfg contour_id) = some names →
        ∀ name ∈ names, ∀ field slice_num image,
          (pySplit '-' name)[2]? = some field →
          pyIntParse field = some slice_num →
          env.parse_dicom_file (dicomPath cfg dicom_id slice_num) = some image →
          joinP cfg.img_dir (sliceBase dicom_id slice_num) ∈ r.images.map Prod.fst ∧
          joinP cfg.i_msk_dir (sliceBase dicom_id slice_num) ∈ r.i_masks.map Prod.fst) ∧
    (∀ linkfile l, parse_all_patients_default env cfg linkfile = .ok l → l = []) := by
  constructor
  · intro dicom_id contour_id r h
    refine ⟨parse_patient_default_rejected_nil env cfg dicom_id contour_id r h, ?_⟩
    intro names hls name hn field slice_num image hf hk hd
    have h' : processList env cfg dicom_id contour_id (fun _ _ => true) names = .ok r := by
      unfold parse_patient_default parse_patient at h
      simp only [hls] at h
      exact h
    exact (processList_default_spec env cfg dicom_id contour_id names r h').2
      name hn field slice_num image hf hk hd
  · intro linkfile
    induction linkfile with
    | nil =>
        intro l h
        simp only [parse_all_patients_default, parse_all_patients, Except.ok.injEq] at h
        exact h.symm
    | cons p rest ih =>
        intro l h
        obtain ⟨d, c⟩ := p
        simp only [parse_all_patients_default, parse_all_patients] at h
        cases hp : parse_patient env cfg d c (fun _ _ => true) with
        | error e => simp [hp] at h
        | ok r =>
            simp only [hp] at h
            cases hrest : parse_all_patients env cfg rest (fun _ _ => true) with
            | error e => simp [hrest] at h
            | ok l' =>
                simp only [hrest, Except.ok.injEq] at h
                have h1 : r.rejected = [] :=
                  parse_patient_default_rejected_nil env cfg d c r hp
                have h2 : l' = [] := ih l' hrest
                rw [← h, h1, h2]
                rfl

theorem claim_C10_default_check_accepts_all_witness :
    parse_patient_default envAcc wCfg "d".toList "c".toList = .ok prAcc ∧
      prAcc.rejected = [] ∧
      joinP wCfg.img_dir (sliceBase "d".toList 3) ∈ prAcc.images.map Prod.fst ∧
      joinP wCfg.i_msk_dir (sliceBase "d".toList 3) ∈ prAcc.i_masks.map Prod.fst ∧
      parse_all_patients_default envAcc wCfg [("d".toList, "c".toList)] = .ok [] := by
  have h := claim_C10_default_check_accepts_all envAcc wCfg
  have h1 := h.1 "d".toList "c".toList prAcc rfl
  refine ⟨rfl, h1.1, ?_, ?_, rfl⟩
  · exact (h1.2 [wName] rfl wName (by decide) "3".toList 3 wImg1
      (by decide) (by decide) rfl).1
  · exact (h1.2 [wName] rfl wName (by decide) "3".toList 3 wImg1
      (by decide) (by decide) rfl).2

end Cardio

